import Mathlib

/-!
Verification of the pyiso ISO 9660 image library (`src/pyiso.py`) against its
natural-language specification.

The development is a shallow embedding: the Python functions that the claims
talk about are translated into executable Lean definitions (bytes are `Nat`s,
byte strings are `List Nat`, Python's arbitrary-precision integers are `Int`,
Python's floor division `//` is `Int.fdiv`, fallible code returns `Except`),
and the claims are settled as theorems about those definitions.  Each
definition carries a comment pointing at the Python source it embeds.
-/

/-- Error kinds surfaced by the library (the source raises `PyIsoException`
with a message; the spec distinguishes the kinds below, and the embedding
keeps them apart so that theorems can talk about which check fired). -/
inductive PyIsoErr where
  | duplicateChild
  | malformedImage
  | invalidArgument
  deriving DecidableEq, Repr

/-! ## Numeric codecs (`pyiso.py` helper functions) -/

/-- `ceiling_div(numer, denom)` from pyiso.py: upside-down floor division
`-(-numer // denom)`.  Python's `//` is floor division, i.e. `Int.fdiv`. -/
def ceiling_div (numer denom : Int) : Int := -((-numer).fdiv denom)

/-- `swab_16bit(input_int)` from pyiso.py (`socket.htons`): byte-swap of a
16-bit integer. -/
def swab_16bit (input_int : Nat) : Nat :=
  (input_int % 256) * 256 + (input_int / 256 % 256)

theorem ceiling_div_le_iff {d : Int} (n m : Int) (hd : 0 < d) :
    ceiling_div n d ≤ m ↔ n ≤ m * d := by
  unfold ceiling_div
  rw [Int.fdiv_eq_ediv _ (le_of_lt hd), neg_le, Int.le_ediv_iff_mul_le hd,
    neg_mul, neg_le_neg_iff]

theorem le_mul_ceiling_div {d : Int} (n : Int) (hd : 0 < d) :
    n ≤ ceiling_div n d * d :=
  (ceiling_div_le_iff n (ceiling_div n d) hd).mp le_rfl

theorem ceiling_div_mono {d : Int} {n m : Int} (hd : 0 < d) (h : n ≤ m) :
    ceiling_div n d ≤ ceiling_div m d :=
  (ceiling_div_le_iff n (ceiling_div m d) hd).mpr
    (le_trans h (le_mul_ceiling_div m hd))

theorem ceiling_div_add_self {d : Int} (n : Int) (hd : 0 < d) :
    ceiling_div (n + d) d = ceiling_div n d + 1 := by
  unfold ceiling_div
  have h1 : -(n + d) = -n + -1 * d := by ring
  rw [h1, Int.fdiv_eq_ediv _ (le_of_lt hd), Int.fdiv_eq_ediv _ (le_of_lt hd),
    Int.add_mul_ediv_right _ _ (ne_of_gt hd)]
  ring

theorem ceiling_div_zero_left {d : Int} : ceiling_div 0 d = 0 := by
  unfold ceiling_div
  simp [Int.fdiv]

theorem ceiling_div_self {d : Int} (hd : 0 < d) : ceiling_div d d = 1 := by
  have := ceiling_div_add_self (d := d) 0 hd
  simpa [ceiling_div_zero_left] using this

theorem ceiling_div_four_self {d : Int} (hd : 0 < d) :
    ceiling_div (4 * d) d = 4 := by
  have h1 : 4 * d = 0 + d + d + d + d := by ring
  rw [h1, ceiling_div_add_self _ hd, ceiling_div_add_self _ hd,
    ceiling_div_add_self _ hd, ceiling_div_add_self _ hd, ceiling_div_zero_left]
  norm_num

/-! ## El Torito Validation Entry (claim C3)

Embedding of `EltoritoValidationEntry` from pyiso.py.  The 32-byte entry is a
`List Nat` of byte values, laid out by `struct.pack("=BBH24sHBB", ...)`:
byte 0 header_id, byte 1 platform_id, bytes 2-3 reserved (little-endian 16-bit
zero), bytes 4-27 id_string, bytes 28-29 checksum (little-endian 16-bit),
byte 30 key 0x55, byte 31 key 0xAA. -/

/-- `EltoritoValidationEntry._checksum(data)`: running 16-bit sum of the
little-endian words of `data`, with carries discarded
(`s = (s + w) & 0xffff`). The entries it is applied to have even length. -/
def eltorito_checksum : List Nat → Nat → Nat
  | a :: b :: rest, s => eltorito_checksum rest ((s + (a + b * 256)) % 65536)
  | _, s => s

/-- Serialized form of a validation entry with the fixed field values that
`EltoritoValidationEntry.new()` assigns (`header_id = 1`, `platform_id = 0`,
`id_string` 24 NULs, key bytes 0x55 0xAA), parameterized by the value of the
16-bit checksum field (packed little-endian).  This is
`EltoritoValidationEntry._record()` as invoked from `new()`. -/
def eltoritoValidationRecordBytes (checksum : Nat) : List Nat :=
  [1, 0, 0, 0] ++ List.replicate 24 0 ++
    [checksum % 256, checksum / 256 % 256] ++ [0x55, 0xaa]

/-- Checksum field chosen by `EltoritoValidationEntry.new()`:
`self.checksum = 0; self.checksum = swab_16bit(self._checksum(self._record()) - 1)`. -/
def eltoritoNewChecksumField : Nat :=
  swab_16bit (eltorito_checksum (eltoritoValidationRecordBytes 0) 0 - 1)

/-- Serialized validation entry produced by `EltoritoValidationEntry.new()`
(this is the entry `add_eltorito` puts into every new boot catalog;
`new()` takes no inputs, so the bytes are fixed). -/
def eltoritoNewValidationEntry : List Nat :=
  eltoritoValidationRecordBytes eltoritoNewChecksumField

/-- Parsed form of a validation entry (`EltoritoValidationEntry` fields). -/
structure EltoritoValidationEntry where
  header_id : Nat
  platform_id : Nat
  id_string : List Nat
  checksum : Nat
  keybyte1 : Nat
  keybyte2 : Nat
  deriving DecidableEq, Repr

/-- `EltoritoValidationEntry.parse(valstr)`: unpack the 32-byte entry, check
`header_id == 1`, `platform_id in [0, 1, 2]`, the two key bytes, and finally
that `_checksum(valstr) == 0`; any failed check raises (MalformedImage). -/
def eltoritoValidationParse (valstr : List Nat) :
    Except PyIsoErr EltoritoValidationEntry :=
  if valstr.length ≠ 32 then .error .malformedImage
  else if valstr.getD 0 0 ≠ 1 then .error .malformedImage
  else if valstr.getD 1 0 ∉ [0, 1, 2] then .error .malformedImage
  else if valstr.getD 30 0 ≠ 0x55 then .error .malformedImage
  else if valstr.getD 31 0 ≠ 0xaa then .error .malformedImage
  else if eltorito_checksum valstr 0 ≠ 0 then .error .malformedImage
  else .ok ⟨valstr.getD 0 0, valstr.getD 1 0, (valstr.drop 4).take 24,
    valstr.getD 28 0 + valstr.getD 29 0 * 256, valstr.getD 30 0, valstr.getD 31 0⟩

/-- Claim C3: the validation entry created by `add_eltorito` (via
`EltoritoValidationEntry.new`) has 16-bit little-endian word sum zero mod
2^16, and `parse` rejects (raising MalformedImage) every 32-byte validation
entry whose word sum is nonzero. -/
theorem eltorito_validation_checksum_ok :
    eltorito_checksum eltoritoNewValidationEntry 0 = 0 ∧
      ∀ valstr : List Nat, eltorito_checksum valstr 0 ≠ 0 →
        eltoritoValidationParse valstr = .error .malformedImage := by
  constructor
  · decide
  · intro valstr hsum
    unfold eltoritoValidationParse
    split_ifs <;> rfl

/-- Witness for C3: a concrete 32-byte string with nonzero word sum is
rejected by the parser. -/
theorem eltorito_validation_checksum_ok_witness :
    eltoritoValidationParse (3 :: List.replicate 31 0) = .error .malformedImage :=
  eltorito_validation_checksum_ok.2 (3 :: List.replicate 31 0) (by decide)

/-! ## Directory-record children: `add_child` (claims C5 and C6)

Embedding of the parts of `DirectoryRecord` that `add_child` manipulates.
A child record is reduced to the fields `add_child` and the sort order read:
`file_ident` (byte string), `file_flags`, `dr_len`
(`directory_record_length()`), and `isdir`.  The parent directory record is
reduced to its ordered `children` list, `curr_length` and `data_length`;
the owning volume descriptor to `space_size`, `log_block_size`,
`path_tbl_size` and `path_table_num_extents` (the fields `add_entry` /
`remove_entry` / `add_to_space_size` touch). -/

structure ChildRecord where
  file_ident : List Nat
  file_flags : Nat
  dr_len : Int
  isdir : Bool
  deriving DecidableEq, Repr

/-- `FILE_FLAG_ASSOCIATED_FILE_BIT = 2` from `DirectoryRecord`. -/
def FILE_FLAG_ASSOCIATED_FILE_BIT : Nat := 2

/-- `DirectoryRecord.is_associated_file()`: tests
`self.file_flags & (1 << FILE_FLAG_ASSOCIATED_FILE_BIT)` (Python returns the
masked integer, used for its truthiness). -/
def is_associated_file (r : ChildRecord) : Bool :=
  r.file_flags &&& (1 <<< FILE_FLAG_ASSOCIATED_FILE_BIT) ≠ 0

/-- Lexicographic byte-string comparison, as Python's `<` on `str`:
compare byte by byte; a proper prefix is smaller. -/
def lexLt : List Nat → List Nat → Bool
  | [], [] => false
  | [], _ :: _ => true
  | _ :: _, [] => false
  | a :: as, b :: bs => if a < b then true else if b < a then false else lexLt as bs

/-- `DirectoryRecord.__lt__(self, other)`: the ISO 9660 sort order used when
inserting children — `'\x00'` (dot) first, `'\x01'` (dotdot) second, the rest
lexicographic by `file_ident`.  Transcribed branch by branch from the source
(including the redundant re-check of `other` against `'\x00'` inside the
`self == '\x01'` branch). -/
def directoryRecordLT (self other : ChildRecord) : Bool :=
  if self.file_ident = [0] then
    if other.file_ident = [0] then false else true
  else if other.file_ident = [0] then false
  else if self.file_ident = [1] then
    if other.file_ident = [0] then false else true
  else if other.file_ident = [1] then false
  else lexLt self.file_ident other.file_ident

/-- `bisect.insort_left(list, x)`: insert `x` into a sorted list, before any
element equal to it.  On a list sorted by `lt` ascending, `bisect_left`
returns the first position whose element is not `< x`; this linear transcription
inserts at exactly that position. -/
def insort_left {α : Type} (lt : α → α → Bool) (x : α) : List α → List α
  | [] => [x]
  | y :: ys => if lt y x then y :: insort_left lt x ys else x :: y :: ys

structure VDState where
  space_size : Int
  log_block_size : Int
  path_tbl_size : Int
  path_table_num_extents : Int
  deriving DecidableEq, Repr

/-- `HeaderVolumeDescriptor.add_to_space_size(addition_bytes)`: round the byte
count up to whole extents and add it to `space_size`. -/
def add_to_space_size (vd : VDState) (addition_bytes : Int) : VDState :=
  { vd with space_size :=
      vd.space_size + ceiling_div addition_bytes vd.log_block_size }

/-- `HeaderVolumeDescriptor.remove_from_space_size(removal_bytes)`: round the
byte count up to whole extents and subtract it from `space_size`. -/
def remove_from_space_size (vd : VDState) (removal_bytes : Int) : VDState :=
  { vd with space_size :=
      vd.space_size - ceiling_div removal_bytes vd.log_block_size }

structure DirState where
  children : List ChildRecord
  curr_length : Int
  data_length : Int
  isdir : Bool
  deriving DecidableEq, Repr

/-- Duplicate test performed by the loop at the top of
`DirectoryRecord.add_child`: the loop raises for the first existing child `c`
with `c.file_ident == child.file_ident` such that
`not c.is_associated_file() and not child.is_associated_file()`. -/
def duplicateViolation (c child : ChildRecord) : Bool :=
  c.file_ident == child.file_ident &&
    !(is_associated_file c) && !(is_associated_file child)

/-- `DirectoryRecord.add_child(child, vd, parsing)`: raise on a non-directory
parent; raise Duplicate per `duplicateViolation`; insert the child in sorted
order via `bisect.insort_left`; add `child.directory_record_length()` to
`curr_length`; on overflow of `data_length`, raise MalformedImage when
parsing, otherwise grow `data_length` by one logical block and the volume
descriptor's space size by the same block. -/
def add_child (self : DirState) (child : ChildRecord) (vd : VDState)
    (parsing : Bool) : Except PyIsoErr (DirState × VDState) :=
  if self.isdir = false then .error .invalidArgument
  else if self.children.any (fun c => duplicateViolation c child) then
    .error .duplicateChild
  else if self.curr_length + child.dr_len > self.data_length then
    if parsing then .error .malformedImage
    else
      .ok ({ self with
             children := insort_left directoryRecordLT child self.children,
             curr_length := self.curr_length + child.dr_len,
             data_length := self.data_length + vd.log_block_size },
           add_to_space_size vd vd.log_block_size)
  else
    .ok ({ self with
           children := insort_left directoryRecordLT child self.children,
           curr_length := self.curr_length + child.dr_len },
         vd)

/-- Concrete instances refuting claim C5 as stated: an existing associated
child and a new non-associated child with the same identifier. -/
def c5Existing : ChildRecord := ⟨[65], 4, 40, false⟩

def c5NewChild : ChildRecord := ⟨[65], 0, 40, false⟩

def c5Dir : DirState := ⟨[c5Existing], 40, 2048, true⟩

def c5VD : VDState := ⟨24, 2048, 10, 2⟩

/-- Counterexample to claim C5 as stated: the existing child carries the
associated-file flag, the new child does not — so they do NOT both carry the
flag — yet `add_child` succeeds instead of raising Duplicate (the source only
raises when BOTH records lack the flag). -/
theorem add_child_duplicate_claim_counterexample :
    c5Existing ∈ c5Dir.children ∧
      c5Existing.file_ident = c5NewChild.file_ident ∧
      ¬(is_associated_file c5Existing = true ∧
        is_associated_file c5NewChild = true) ∧
      (add_child c5Dir c5NewChild c5VD false).isOk = true := by
  refine ⟨by simp [c5Dir], by decide, by decide, by rfl⟩

/-- Claim C5 amended: `add_child` raises Duplicate exactly when some existing
child has the new child's `file_ident` and neither that child nor the new
child carries the associated-file flag; when every same-named existing child
or the new child carries the flag (and no data-length overflow aborts a
parse), the insertion succeeds. -/
theorem add_child_duplicate_amended (self : DirState) (child : ChildRecord)
    (vd : VDState) (parsing : Bool) (hdir : self.isdir = true) :
    ((∃ c ∈ self.children, c.file_ident = child.file_ident ∧
        is_associated_file c = false ∧ is_associated_file child = false) →
      add_child self child vd parsing = .error .duplicateChild) ∧
    ((∀ c ∈ self.children, c.file_ident = child.file_ident →
        is_associated_file c = true ∨ is_associated_file child = true) →
      ¬(parsing = true ∧ self.curr_length + child.dr_len > self.data_length) →
      (add_child self child vd parsing).isOk = true) := by
  constructor
  · rintro ⟨c, hc, hid, ha, hb⟩
    have hany : (self.children.any fun c => duplicateViolation c child) = true :=
      List.any_eq_true.mpr ⟨c, hc, by simp [duplicateViolation, hid, ha, hb]⟩
    simp [add_child, hdir, hany]
  · intro hall hnov
    have hany : (self.children.any fun c => duplicateViolation c child) = false := by
      rw [List.any_eq_false]
      intro c hc hviol
      simp only [duplicateViolation, Bool.and_eq_true, beq_iff_eq,
        Bool.not_eq_true'] at hviol
      rcases hall c hc hviol.1.1 with h | h
      · rw [hviol.1.2] at h; cases h
      · rw [hviol.2] at h; cases h
    simp only [add_child, hdir, hany]
    norm_num
    split
    · split
      · rename_i hover hp
        exact absurd ⟨hp, hover⟩ hnov
      · rfl
    · rfl

/-- Witness for the amended C5: inserting a second associated child with the
same identifier next to an associated sibling succeeds. -/
theorem add_child_duplicate_amended_witness :
    (add_child c5Dir ⟨[65], 4, 40, false⟩ c5VD false).isOk = true :=
  (add_child_duplicate_amended c5Dir ⟨[65], 4, 40, false⟩ c5VD false
    (by rfl)).2 (by decide) (by decide)

/-- Claim C6: when the cumulative child-record length would exceed
`data_length` outside parsing, `add_child` grows `data_length` by exactly one
logical block and the volume descriptor's `space_size` by exactly one block;
during parsing the same overflow raises MalformedImage. -/
theorem add_child_overflow_grows_one_block (self : DirState)
    (child : ChildRecord) (vd : VDState) (hdir : self.isdir = true)
    (hlbs : 0 < vd.log_block_size)
    (hnodup : self.children.any (fun c => duplicateViolation c child) = false)
    (hover : self.curr_length + child.dr_len > self.data_length) :
    add_child self child vd true = .error .malformedImage ∧
      add_child self child vd false =
        .ok ({ self with
               children := insort_left directoryRecordLT child self.children,
               curr_length := self.curr_length + child.dr_len,
               data_length := self.data_length + vd.log_block_size },
             { vd with space_size := vd.space_size + 1 }) := by
  have hsp : add_to_space_size vd vd.log_block_size =
      { vd with space_size := vd.space_size + 1 } := by
    unfold add_to_space_size
    rw [ceiling_div_self hlbs]
  constructor
  · simp [add_child, hdir, hnodup, hover]
  · simp [add_child, hdir, hnodup, hover, hsp]

/-- Witness for C6: a directory nearly full overflows on an insertion and
grows by exactly one 2048-byte block (and `space_size` by one extent). -/
theorem add_child_overflow_grows_one_block_witness :
    add_child ⟨[], 2040, 2048, true⟩ ⟨[66], 0, 40, false⟩ c5VD true =
        .error .malformedImage ∧
      add_child ⟨[], 2040, 2048, true⟩ ⟨[66], 0, 40, false⟩ c5VD false =
        .ok (⟨[⟨[66], 0, 40, false⟩], 2080, 4096, true⟩, ⟨25, 2048, 10, 2⟩) :=
  add_child_overflow_grows_one_block ⟨[], 2040, 2048, true⟩ ⟨[66], 0, 40, false⟩
    c5VD (by rfl) (by decide) (by rfl) (by decide)

/-! ## Path-table bookkeeping: `add_entry` / `remove_entry` (claim C7) -/

/-- `PathTableRecord.record_length(len_di)`:
`struct.calcsize("=BBLH") + len_di + (len_di % 2)` = `8 + len_di + len_di % 2`. -/
def path_table_record_length (len_di : Int) : Int := 8 + len_di + len_di % 2

/-- `HeaderVolumeDescriptor.add_entry(flen, ptr_size)`: grow `path_tbl_size`
by `ptr_size`; if `ceiling_div(path_tbl_size, 4096) * 2` now exceeds
`path_table_num_extents`, add four extents (2 LE + 2 BE) to the space size and
bump `path_table_num_extents` by 2; finally add `flen` to the space size. -/
def add_entry (vd : VDState) (flen ptr_size : Int) : VDState :=
  let vd1 := { vd with path_tbl_size := vd.path_tbl_size + ptr_size }
  let vd2 :=
    if ceiling_div vd1.path_tbl_size 4096 * 2 > vd1.path_table_num_extents then
      { add_to_space_size vd1 (4 * vd1.log_block_size) with
        path_table_num_extents := vd1.path_table_num_extents + 2 }
    else vd1
  add_to_space_size vd2 flen

/-- `HeaderVolumeDescriptor.remove_entry(flen, directory_ident)`: remove
`flen` from the space size; when a directory identifier was given, the source
looks up the matching path table record and shrinks `path_tbl_size` by its
`record_length(len_di)` — here the found record's `len_di` stands in for the
lookup.  If the recomputed extent count exceeds the current one the source
raises ("This should never happen"); if it shrank, four extents are returned
to the space size and `path_table_num_extents` drops by 2. -/
def remove_entry (vd : VDState) (flen : Int) (found_len_di : Option Int) :
    Except PyIsoErr VDState :=
  let vd1 := remove_from_space_size vd flen
  match found_len_di with
  | none => .ok vd1
  | some len_di =>
    let vd2 := { vd1 with
                 path_tbl_size :=
                   vd1.path_tbl_size - path_table_record_length len_di }
    if ceiling_div vd2.path_tbl_size 4096 * 2 > vd2.path_table_num_extents then
      .error .invalidArgument
    else if ceiling_div vd2.path_tbl_size 4096 * 2 <
        vd2.path_table_num_extents then
      .ok { remove_from_space_size vd2 (4 * vd2.log_block_size) with
            path_table_num_extents := vd2.path_table_num_extents - 2 }
    else .ok vd2

/-- Claim C7: under the path-table invariant
`path_table_num_extents = ceiling_div path_tbl_size 4096 * 2`, (a) the bound
`record_length(len_di) ≤ 4096` holds for every legal identifier length
(callers pass `record_length` of an identifier of at most 255 bytes, or 0);
(b) `add_entry` re-establishes the invariant, and adds exactly four extra
blocks to `space_size` and 2 to `path_table_num_extents` exactly when the
extent count grows; (c) `remove_entry` never hits its "should never happen"
branch, re-establishes the invariant, and symmetrically returns four blocks
exactly when the extent count shrinks. -/
theorem path_table_size_bookkeeping (vd : VDState) (flen ptr_size len_di : Int)
    (hlbs : 0 < vd.log_block_size)
    (hinv : vd.path_table_num_extents = ceiling_div vd.path_tbl_size 4096 * 2)
    (hp0 : 0 ≤ ptr_size) (hp1 : ptr_size ≤ 4096)
    (hl0 : 0 ≤ len_di) (hl1 : len_di ≤ 255) :
    (0 < path_table_record_length len_di ∧
      path_table_record_length len_di ≤ 4096) ∧
    (let vd' := add_entry vd flen ptr_size
     vd'.path_tbl_size = vd.path_tbl_size + ptr_size ∧
     vd'.path_table_num_extents = ceiling_div vd'.path_tbl_size 4096 * 2 ∧
     (if ceiling_div (vd.path_tbl_size + ptr_size) 4096 * 2 >
          vd.path_table_num_extents then
        vd'.path_table_num_extents = vd.path_table_num_extents + 2 ∧
        vd'.space_size =
          vd.space_size + 4 + ceiling_div flen vd.log_block_size
      else
        vd'.path_table_num_extents = vd.path_table_num_extents ∧
        vd'.space_size = vd.space_size + ceiling_div flen vd.log_block_size)) ∧
    ((remove_entry vd flen (some len_di)).isOk = true ∧
      ∀ vd'', remove_entry vd flen (some len_di) = .ok vd'' →
        vd''.path_tbl_size =
          vd.path_tbl_size - path_table_record_length len_di ∧
        vd''.path_table_num_extents =
          ceiling_div vd''.path_tbl_size 4096 * 2 ∧
        (if ceiling_div (vd.path_tbl_size - path_table_record_length len_di)
             4096 * 2 < vd.path_table_num_extents then
          vd''.path_table_num_extents = vd.path_table_num_extents - 2 ∧
          vd''.space_size =
            vd.space_size - ceiling_div flen vd.log_block_size - 4
        else
          vd''.path_table_num_extents = vd.path_table_num_extents ∧
          vd''.space_size =
            vd.space_size - ceiling_div flen vd.log_block_size)) := by
  have h4096 : (0 : Int) < 4096 := by norm_num
  have hrl : 0 < path_table_record_length len_di ∧
      path_table_record_length len_di ≤ 4096 := by
    unfold path_table_record_length
    omega
  have hgrow_le : ceiling_div (vd.path_tbl_size + ptr_size) 4096 ≤
      ceiling_div vd.path_tbl_size 4096 + 1 := by
    have h1 : vd.path_tbl_size + ptr_size ≤ vd.path_tbl_size + 4096 := by omega
    have h2 := ceiling_div_mono (d := 4096) h4096 h1
    rwa [ceiling_div_add_self vd.path_tbl_size h4096] at h2
  have hgrow_ge : ceiling_div vd.path_tbl_size 4096 ≤
      ceiling_div (vd.path_tbl_size + ptr_size) 4096 :=
    ceiling_div_mono h4096 (by omega)
  have hshrink_le :
      ceiling_div (vd.path_tbl_size - path_table_record_length len_di) 4096 ≤
        ceiling_div vd.path_tbl_size 4096 :=
    ceiling_div_mono h4096 (by omega)
  have hshrink_ge : ceiling_div vd.path_tbl_size 4096 - 1 ≤
      ceiling_div (vd.path_tbl_size - path_table_record_length len_di) 4096 := by
    have h1 : vd.path_tbl_size ≤
        (vd.path_tbl_size - path_table_record_length len_di) + 4096 := by omega
    have h2 := ceiling_div_mono (d := 4096) h4096 h1
    rw [ceiling_div_add_self _ h4096] at h2
    omega
  have hfour : ceiling_div (4 * vd.log_block_size) vd.log_block_size = 4 :=
    ceiling_div_four_self hlbs
  refine ⟨hrl, ?_, ?_⟩
  · -- add_entry part
    simp only [add_entry, add_to_space_size]
    split
    · rename_i hgt
      dsimp only
      rw [hfour]
      exact ⟨rfl, by omega, by omega, by omega⟩
    · rename_i hle
      dsimp only
      exact ⟨rfl, by omega, by omega, by omega⟩
  · -- remove_entry part
    constructor
    · simp only [remove_entry, remove_from_space_size]
      rw [if_neg (show ¬(ceiling_div (vd.path_tbl_size -
          path_table_record_length len_di) 4096 * 2 >
          vd.path_table_num_extents) by omega)]
      split <;> rfl
    · intro vd'' hvd
      simp only [remove_entry, remove_from_space_size] at hvd
      rw [if_neg (show ¬(ceiling_div (vd.path_tbl_size -
          path_table_record_length len_di) 4096 * 2 >
          vd.path_table_num_extents) by omega)] at hvd
      split at hvd
      · rename_i hlt
        injection hvd with hvd
        subst hvd
        dsimp only
        rw [if_pos (by omega), hfour]
        exact ⟨rfl, by omega, by omega, by omega⟩
      · rename_i hge
        injection hvd with hvd
        subst hvd
        dsimp only
        rw [if_neg (by omega)]
        exact ⟨rfl, by omega, by omega, by omega⟩

/-- Witness for C7 at a concrete state: a volume descriptor whose path table
is exactly at the 4096-byte boundary grows by four blocks on the next added
entry and shrinks back on removal. -/
theorem path_table_size_bookkeeping_witness :
    (0 < path_table_record_length 10 ∧ path_table_record_length 10 ≤ 4096) ∧
    (let vd' := add_entry ⟨24, 2048, 4096, 2⟩ 2048 18
     vd'.path_tbl_size = 4096 + 18 ∧
     vd'.path_table_num_extents = ceiling_div vd'.path_tbl_size 4096 * 2 ∧
     (if ceiling_div (4096 + 18) 4096 * 2 > 2 then
        vd'.path_table_num_extents = 2 + 2 ∧
        vd'.space_size = 24 + 4 + ceiling_div 2048 2048
      else
        vd'.path_table_num_extents = 2 ∧
        vd'.space_size = 24 + ceiling_div 2048 2048)) ∧
    ((remove_entry ⟨24, 2048, 4096, 2⟩ 2048 (some 10)).isOk = true ∧
      ∀ vd'', remove_entry ⟨24, 2048, 4096, 2⟩ 2048 (some 10) = .ok vd'' →
        vd''.path_tbl_size = 4096 - path_table_record_length 10 ∧
        vd''.path_table_num_extents =
          ceiling_div vd''.path_tbl_size 4096 * 2 ∧
        (if ceiling_div (4096 - path_table_record_length 10) 4096 * 2 < 2 then
          vd''.path_table_num_extents = 2 - 2 ∧
          vd''.space_size = 24 - ceiling_div 2048 2048 - 4
        else
          vd''.path_table_num_extents = 2 ∧
          vd''.space_size = 24 - ceiling_div 2048 2048)) :=
  path_table_size_bookkeeping ⟨24, 2048, 4096, 2⟩ 2048 18 10 (by decide)
    (by decide) (by decide) (by decide) (by decide) (by decide)

/-! ## Children sort order and writer emission order (claim C8) -/

/-- Records that are neither the dot (`'\x00'`) nor the dotdot (`'\x01'`)
entry. -/
def regularIdent (c : ChildRecord) : Bool :=
  c.file_ident != [0] && c.file_ident != [1]

/-- Non-strict lexicographic chain over the identifiers of a record list:
each adjacent pair `(a, b)` satisfies `not (b < a)` in Python's string
order. -/
def lexSortedRecords : List ChildRecord → Bool
  | a :: b :: rest =>
      !(lexLt b.file_ident a.file_ident) && lexSortedRecords (b :: rest)
  | _ => true

/-- Claim C8's ordering shape for a directory's children list: the dot record
first, the dotdot record second, and the remaining children (none of which is
a dot or dotdot record) in lexicographic order of their `file_ident` bytes. -/
def isoChildrenOrdered : List ChildRecord → Bool
  | dot :: dotdot :: rest =>
      dot.file_ident == [0] && dotdot.file_ident == [1] &&
        rest.all regularIdent && lexSortedRecords rest
  | _ => false

/-- Writer inner loop of `PyIso.write` over one directory's children: each
child's serialized record is written at offset `curr_dirrecord_offset` inside
the directory extent and the offset then advances by the record's length
(`len(recstr)`, abstracted as `recLen`).  The output lists the (offset,
child) writes in emission order. -/
def writeDirChildren (recLen : ChildRecord → Int) (offset : Int) :
    List ChildRecord → List (Int × ChildRecord)
  | [] => []
  | c :: rest => (offset, c) :: writeDirChildren recLen (offset + recLen c) rest

theorem lexLt_asymm : ∀ (a b : List Nat), lexLt a b = true → lexLt b a = false
  | [], [] => by simp [lexLt]
  | [], _ :: _ => by simp [lexLt]
  | _ :: _, [] => by simp [lexLt]
  | a :: as, b :: bs => by
    intro h
    simp only [lexLt] at h ⊢
    by_cases hab : a < b
    · rw [if_neg (by omega), if_pos hab]
    · rw [if_neg hab] at h
      by_cases hba : b < a
      · rw [if_pos hba] at h; cases h
      · rw [if_neg hba] at h
        rw [if_neg hba, if_neg hab]
        exact lexLt_asymm as bs h

theorem directoryRecordLT_eq_lexLt (a b : ChildRecord)
    (ha : regularIdent a = true) (hb : regularIdent b = true) :
    directoryRecordLT a b = lexLt a.file_ident b.file_ident := by
  simp only [regularIdent, Bool.and_eq_true, bne_iff_ne, ne_eq] at ha hb
  unfold directoryRecordLT
  rw [if_neg ha.1, if_neg hb.1, if_neg ha.2, if_neg hb.2]

theorem directoryRecordLT_dot_lt (a b : ChildRecord) (ha : a.file_ident = [0])
    (hb : b.file_ident ≠ [0]) : directoryRecordLT a b = true := by
  unfold directoryRecordLT
  rw [if_pos ha, if_neg hb]

theorem directoryRecordLT_dotdot_lt (a b : ChildRecord)
    (ha : a.file_ident = [1]) (hb : b.file_ident ≠ [0]) :
    directoryRecordLT a b = true := by
  unfold directoryRecordLT
  rw [if_neg (by rw [ha]; decide), if_neg hb, if_pos ha, if_neg hb]

theorem insort_left_all {α : Type} (p : α → Bool) (lt : α → α → Bool) (x : α)
    (l : List α) (hl : l.all p = true) (hx : p x = true) :
    (insort_left lt x l).all p = true := by
  induction l with
  | nil => simp [insort_left, hx]
  | cons y ys ih =>
    simp only [List.all_cons, Bool.and_eq_true] at hl
    simp only [insort_left]
    split
    · simp only [List.all_cons, Bool.and_eq_true]
      exact ⟨hl.1, ih hl.2⟩
    · simp only [List.all_cons, Bool.and_eq_true]
      exact ⟨hx, hl.1, hl.2⟩

theorem insort_left_head {α : Type} (lt : α → α → Bool) (x : α) :
    ∀ ys : List α, insort_left lt x ys = x :: ys ∨
      ∃ y ys₁, ys = y :: ys₁ ∧ lt y x = true ∧
        insort_left lt x ys = y :: insort_left lt x ys₁ := by
  intro ys
  match ys with
  | [] => left; rfl
  | y :: ys₁ =>
    by_cases h : lt y x = true
    · right
      exact ⟨y, ys₁, rfl, h, by simp [insort_left, h]⟩
    · left
      simp only [insort_left]
      rw [if_neg h]

theorem lexSortedRecords_cons (a : ChildRecord) (l : List ChildRecord) :
    lexSortedRecords (a :: l) = true ↔
      (∀ b ∈ l.head?, lexLt b.file_ident a.file_ident = false) ∧
        lexSortedRecords l = true := by
  match l with
  | [] => simp [lexSortedRecords]
  | b :: rest =>
    simp only [lexSortedRecords, Bool.and_eq_true, Bool.not_eq_true',
      List.head?, Option.mem_def, Option.some.injEq]
    constructor
    · rintro ⟨h1, h2⟩
      exact ⟨fun c hc => by rw [← hc]; exact h1, h2⟩
    · rintro ⟨h1, h2⟩
      exact ⟨h1 b rfl, h2⟩

theorem lexSortedRecords_insort (c : ChildRecord) :
    ∀ l : List ChildRecord, regularIdent c = true →
      l.all regularIdent = true → lexSortedRecords l = true →
      lexSortedRecords (insort_left directoryRecordLT c l) = true := by
  intro l
  induction l with
  | nil => intro _ _ _; simp [insort_left, lexSortedRecords]
  | cons y ys ih =>
    intro hc hall hs
    simp only [List.all_cons, Bool.and_eq_true] at hall
    rw [lexSortedRecords_cons] at hs
    simp only [insort_left]
    split
    · rename_i hlt
      have hsi := ih hc hall.2 hs.2
      rw [lexSortedRecords_cons]
      refine ⟨?_, hsi⟩
      intro b hb
      rcases insort_left_head directoryRecordLT c ys with hcase | ⟨y₂, ys₁, hys, _, heq⟩
      · rw [hcase] at hb
        simp only [List.head?, Option.mem_def, Option.some.injEq] at hb
        subst hb
        rw [directoryRecordLT_eq_lexLt y c hall.1 hc] at hlt
        exact lexLt_asymm _ _ hlt
      · rw [heq] at hb
        simp only [List.head?, Option.mem_def, Option.some.injEq] at hb
        subst hb
        refine hs.1 y₂ ?_
        rw [hys]
        rfl
    · rename_i hnlt
      rw [lexSortedRecords_cons]
      constructor
      · intro b hb
        simp only [List.head?, Option.mem_def, Option.some.injEq] at hb
        subst hb
        rw [directoryRecordLT_eq_lexLt y c hall.1 hc] at hnlt
        simp only [Bool.not_eq_true] at hnlt
        exact hnlt
      · rw [lexSortedRecords_cons]
        exact hs

theorem writeDirChildren_snd (recLen : ChildRecord → Int) :
    ∀ (l : List ChildRecord) (off : Int),
      (writeDirChildren recLen off l).map Prod.snd = l := by
  intro l
  induction l with
  | nil => intro off; rfl
  | cons c rest ih =>
    intro off
    simp only [writeDirChildren, List.map_cons, ih]

theorem writeDirChildren_offsets_mono (recLen : ChildRecord → Int)
    (hpos : ∀ x, 0 < recLen x) :
    ∀ (l : List ChildRecord) (off : Int),
      List.Chain' (· < ·) ((writeDirChildren recLen off l).map Prod.fst) := by
  intro l
  induction l with
  | nil => intro off; simp [writeDirChildren]
  | cons c rest ih =>
    intro off
    simp only [writeDirChildren, List.map_cons]
    rw [List.chain'_cons']
    refine ⟨?_, ih (off + recLen c)⟩
    intro b hb
    match rest with
    | [] => simp [writeDirChildren] at hb
    | c₂ :: rest₂ =>
      simp only [writeDirChildren, List.map_cons, List.head?, Option.mem_def,
        Option.some.injEq] at hb
      subst hb
      have := hpos c
      omega

theorem lexLt_neg_trans : ∀ (a b c : List Nat), lexLt b a = false →
    lexLt c b = false → lexLt c a = false
  | [], _, c => by
    intro h1 h2
    cases c with
    | nil => simp [lexLt]
    | cons z zs => simp [lexLt]
  | x :: xs, [], c => by
    intro h1 h2
    simp [lexLt] at h1
  | x :: xs, y :: ys, [] => by
    intro h1 h2
    simp [lexLt] at h2
  | x :: xs, y :: ys, z :: zs => by
    intro h1 h2
    simp only [lexLt] at h1 h2 ⊢
    by_cases hyx : y < x
    · rw [if_pos hyx] at h1; cases h1
    · rw [if_neg hyx] at h1
      by_cases hzy : z < y
      · rw [if_pos hzy] at h2; cases h2
      · rw [if_neg hzy] at h2
        by_cases hzx : z < x
        · exact absurd hzx (by omega)
        · rw [if_neg hzx]
          by_cases hxz : x < z
          · rw [if_pos hxz]
          · rw [if_neg hxz]
            have hxy : ¬ x < y := by omega
            have hyz : ¬ y < z := by omega
            rw [if_neg hxy] at h1
            rw [if_neg hyz] at h2
            exact lexLt_neg_trans xs ys zs h1 h2

theorem all_regular_eraseIdx :
    ∀ (l : List ChildRecord) (i : Nat), l.all regularIdent = true →
      (l.eraseIdx i).all regularIdent = true
  | [], _ => by intro h; simp [List.eraseIdx]
  | a :: rest, 0 => by
    intro h
    simp only [List.all_cons, Bool.and_eq_true] at h
    simpa [List.eraseIdx] using h.2
  | a :: rest, i + 1 => by
    intro h
    simp only [List.all_cons, Bool.and_eq_true] at h
    simp only [List.eraseIdx, List.all_cons, Bool.and_eq_true]
    exact ⟨h.1, all_regular_eraseIdx rest i h.2⟩

theorem lexSortedRecords_eraseIdx :
    ∀ (l : List ChildRecord) (i : Nat), lexSortedRecords l = true →
      lexSortedRecords (l.eraseIdx i) = true
  | [], _ => by intro h; simpa [List.eraseIdx] using h
  | a :: rest, 0 => by
    intro h
    rw [lexSortedRecords_cons] at h
    simpa [List.eraseIdx] using h.2
  | a :: rest, i + 1 => by
    intro h
    rw [lexSortedRecords_cons] at h
    simp only [List.eraseIdx]
    rw [lexSortedRecords_cons]
    refine ⟨?_, lexSortedRecords_eraseIdx rest i h.2⟩
    intro b hb
    match rest, hb with
    | r0 :: rtail, hb =>
      cases i with
      | zero =>
        cases rtail with
        | nil => simp [List.eraseIdx] at hb
        | cons r1 rr =>
          simp only [List.eraseIdx, List.head?, Option.mem_def,
            Option.some.injEq] at hb
          subst hb
          have h1 : lexLt r0.file_ident a.file_ident = false := h.1 r0 rfl
          have hs := h.2
          rw [lexSortedRecords_cons] at hs
          have h2 : lexLt r1.file_ident r0.file_ident = false := hs.1 r1 rfl
          exact lexLt_neg_trans a.file_ident r0.file_ident r1.file_ident h1 h2
      | succ j =>
        simp only [List.eraseIdx, List.head?, Option.mem_def,
          Option.some.injEq] at hb
        subst hb
        exact h.1 r0 rfl

/-- Claim C8: building a directory the way `new` / `add_directory` do — dot
inserted into an empty children list, then dotdot, then arbitrary further
children with regular identifiers via `bisect.insort_left` under
`DirectoryRecord.__lt__` — always leaves the children list in the shape
dot, dotdot, then lexicographically ordered regular records; removing a
regular child the way `remove_child` does (`del self.children[index]`, the
mutation API never removes a dot or dotdot record, so the index is at least
2) keeps that shape; and the writer emits a directory's children exactly in
children-list order, at strictly increasing offsets inside the directory
extent. -/
theorem children_sort_order (dot dotdot c : ChildRecord)
    (l : List ChildRecord) (recLen : ChildRecord → Int) (off : Int)
    (hdot : dot.file_ident = [0]) (hdotdot : dotdot.file_ident = [1]) :
    (isoChildrenOrdered (insort_left directoryRecordLT dotdot
        (insort_left directoryRecordLT dot [])) = true) ∧
    (isoChildrenOrdered l = true → regularIdent c = true →
      isoChildrenOrdered (insort_left directoryRecordLT c l) = true) ∧
    (∀ i, isoChildrenOrdered l = true →
      isoChildrenOrdered (l.eraseIdx (i + 2)) = true) ∧
    ((writeDirChildren recLen off l).map Prod.snd = l) ∧
    ((∀ x, 0 < recLen x) →
      List.Chain' (· < ·) ((writeDirChildren recLen off l).map Prod.fst)) := by
  refine ⟨?_, ?_, ?_, writeDirChildren_snd recLen l off,
    fun hpos => writeDirChildren_offsets_mono recLen hpos l off⟩
  · have h1 : insort_left directoryRecordLT dot ([] : List ChildRecord) =
        [dot] := rfl
    have h2 : directoryRecordLT dot dotdot = true :=
      directoryRecordLT_dot_lt dot dotdot hdot (by rw [hdotdot]; decide)
    rw [h1]
    simp only [insort_left, h2, if_true]
    simp [isoChildrenOrdered, hdot, hdotdot, lexSortedRecords]
  · intro hord hc
    match l, hord with
    | d0 :: d1 :: rest, hord =>
      simp only [isoChildrenOrdered, Bool.and_eq_true, beq_iff_eq] at hord
      obtain ⟨⟨⟨hd0, hd1⟩, hall⟩, hsort⟩ := hord
      have hcid : c.file_ident ≠ [0] ∧ c.file_ident ≠ [1] := by
        simpa [regularIdent] using hc
      have hlt1 : directoryRecordLT d0 c = true :=
        directoryRecordLT_dot_lt d0 c hd0 hcid.1
      have hlt2 : directoryRecordLT d1 c = true :=
        directoryRecordLT_dotdot_lt d1 c hd1 hcid.1
      simp only [insort_left, hlt1, hlt2, if_true]
      simp only [isoChildrenOrdered, Bool.and_eq_true, beq_iff_eq]
      exact ⟨⟨⟨hd0, hd1⟩, insort_left_all _ _ _ _ hall hc⟩,
        lexSortedRecords_insort c rest hc hall hsort⟩
  · intro i hord
    match l, hord with
    | d0 :: d1 :: rest, hord =>
      simp only [isoChildrenOrdered, Bool.and_eq_true, beq_iff_eq] at hord
      obtain ⟨⟨⟨hd0, hd1⟩, hall⟩, hsort⟩ := hord
      show isoChildrenOrdered (d0 :: d1 :: rest.eraseIdx i) = true
      simp only [isoChildrenOrdered, Bool.and_eq_true, beq_iff_eq]
      exact ⟨⟨⟨hd0, hd1⟩, all_regular_eraseIdx rest i hall⟩,
        lexSortedRecords_eraseIdx rest i hsort⟩

/-- Witness for C8 at concrete inputs: dot then dotdot then two regular
names inserted out of order come out in ISO 9660 order. -/
theorem children_sort_order_witness :
    (isoChildrenOrdered (insort_left directoryRecordLT ⟨[1], 0, 34, true⟩
        (insort_left directoryRecordLT ⟨[0], 0, 34, true⟩ [])) = true) ∧
    (isoChildrenOrdered [⟨[0], 0, 34, true⟩, ⟨[1], 0, 34, true⟩,
        ⟨[66], 0, 40, false⟩] = true → regularIdent ⟨[65], 0, 40, false⟩ = true →
      isoChildrenOrdered (insort_left directoryRecordLT ⟨[65], 0, 40, false⟩
        [⟨[0], 0, 34, true⟩, ⟨[1], 0, 34, true⟩, ⟨[66], 0, 40, false⟩]) = true) ∧
    (∀ i, isoChildrenOrdered [⟨[0], 0, 34, true⟩, ⟨[1], 0, 34, true⟩,
        ⟨[66], 0, 40, false⟩] = true →
      isoChildrenOrdered ([⟨[0], 0, 34, true⟩, ⟨[1], 0, 34, true⟩,
        ⟨[66], 0, 40, false⟩].eraseIdx (i + 2)) = true) ∧
    ((writeDirChildren (fun _ => 40) 0 [⟨[0], 0, 34, true⟩,
        ⟨[1], 0, 34, true⟩, ⟨[66], 0, 40, false⟩]).map Prod.snd =
      [⟨[0], 0, 34, true⟩, ⟨[1], 0, 34, true⟩, ⟨[66], 0, 40, false⟩]) ∧
    ((∀ x : ChildRecord, 0 < (fun _ => (40 : Int)) x) →
      List.Chain' (· < ·) ((writeDirChildren (fun _ => 40) 0
        [⟨[0], 0, 34, true⟩, ⟨[1], 0, 34, true⟩,
         ⟨[66], 0, 40, false⟩]).map Prod.fst)) :=
  children_sort_order ⟨[0], 0, 34, true⟩ ⟨[1], 0, 34, true⟩ ⟨[65], 0, 40, false⟩
    [⟨[0], 0, 34, true⟩, ⟨[1], 0, 34, true⟩, ⟨[66], 0, 40, false⟩]
    (fun _ => 40) 0 (by rfl) (by rfl)

/-! ## Rock Ridge POSIX nlink bookkeeping (claim C4)

Model of the directory tree of a Rock Ridge image built by
`PyIso.new(rock_ridge=True)` followed by `add_directory` / `rm_directory`
calls, reduced to the POSIX-link (`posix_file_links`) bookkeeping those calls
perform.  An `RRTree` node stands for one directory: `dotLinks` is the
`posix_file_links` stored in the PX record of the directory's dot child
(`children[0]`), `dotdotLinks` the one of its dotdot child (`children[1]`),
`recLinks` the one of the directory's own record inside its parent, and
`children` its subdirectories (files never touch these counters: the
`add_to_file_links` calls in `DirectoryRecord._new` are guarded by
`self.isdir`).  The sibling order inside a forest is irrelevant to the
counters, so insertion position is not modeled. -/

mutual
inductive RRTree where
  | node (dotLinks dotdotLinks recLinks : Int) (children : RRForest) : RRTree
  deriving DecidableEq, Repr
inductive RRForest where
  | nil : RRForest
  | cons (name : Nat) (t : RRTree) (rest : RRForest) : RRForest
  deriving DecidableEq, Repr
end

def rrDotLinks : RRTree → Int
  | .node d _ _ _ => d

def rrDotdotLinks : RRTree → Int
  | .node _ dd _ _ => dd

def rrChildren : RRTree → RRForest
  | .node _ _ _ cs => cs

def forestLen : RRForest → Nat
  | .nil => 0
  | .cons _ _ rest => 1 + forestLen rest

def forestHasName (n : Nat) : RRForest → Bool
  | .nil => false
  | .cons m _ rest => m == n || forestHasName n rest

def forestFind (n : Nat) : RRForest → Option RRTree
  | .nil => none
  | .cons m t rest => if m = n then some t else forestFind n rest

/-- Removal of the first child with the given name
(`del self.children[index]` in `DirectoryRecord.remove_child`). -/
def forestRemove (n : Nat) : RRForest → RRForest
  | .nil => .nil
  | .cons m t rest => if m = n then rest else .cons m t (forestRemove n rest)

/- Claim C4's nlink identity, checked at every directory of the tree:
the dot entry's link count equals 2 plus the number of child directories. -/
mutual
def invTree : RRTree → Bool
  | .node d _ _ cs => (d == 2 + (forestLen cs : Int)) && invForest cs
def invForest : RRForest → Bool
  | .nil => true
  | .cons _ t rest => invTree t && invForest rest
end

/- `PyIso.add_directory(iso_path)` on a Rock Ridge image, reduced to its
nlink bookkeeping.  The path lists the directory names from the root down;
the last entry is the new directory's name.  Per `DirectoryRecord._new`
(rock-ridge branch, `self.isdir` true):
creating the record under a non-root parent P runs
`P.rock_ridge.add_to_file_links()` and `P.children[0].rock_ridge.add_to_file_links()`
(recLinks P + 1, dot P + 1); under the root it runs the same on
`children[0]` and `children[1]` (dot + 1, dotdot + 1).  Creating the new
directory's dot then increments the new record (1 → 2) and the dot itself
(1 → 2); creating its dotdot copies `parent.parent.children[1]`, the
(already updated) dotdot count of P.  A duplicate name or a missing
intermediate directory raises, modeled as `none`. -/
mutual
def addDirTree (isRoot : Bool) : RRTree → List Nat → Option RRTree
  | _, [] => none
  | .node d dd rl cs, [name] =>
      if forestHasName name cs then none
      else
        let d' := d + 1
        let dd' := if isRoot then dd + 1 else dd
        let rl' := if isRoot then rl else rl + 1
        some (.node d' dd' rl' (.cons name (.node 2 dd' 2 .nil) cs))
  | .node d dd rl cs, n :: rest₁ :: rest₂ =>
      (addDirForest n (rest₁ :: rest₂) cs).map (fun cs' => .node d dd rl cs')
termination_by t path => (path.length, sizeOf t)

def addDirForest (n : Nat) (path : List Nat) : RRForest → Option RRForest
  | .nil => none
  | .cons m t rest =>
      if m = n then (addDirTree false t path).map (fun t' => .cons m t' rest)
      else (addDirForest n path rest).map (fun rest' => .cons m t rest')
termination_by cs => (path.length, sizeOf cs)
end

/- `PyIso.rm_directory(iso_path)`, reduced to its nlink bookkeeping.  The
directory must exist and be empty (only dot and dotdot children).  Per
`DirectoryRecord.remove_child`: removing a rock-ridge directory child from
the root runs `remove_from_file_links` on the root's `children[0]` and
`children[1]` (dot - 1, dotdot - 1); from a non-root parent P it runs it on
`P.rock_ridge` and `P.children[0]` (recLinks P - 1, dot P - 1). -/
mutual
def rmDirTree (isRoot : Bool) : RRTree → List Nat → Option RRTree
  | _, [] => none
  | .node d dd rl cs, [name] =>
      match forestFind name cs with
      | none => none
      | some (.node _ _ _ (.cons _ _ _)) => none
      | some (.node _ _ _ .nil) =>
          let d' := d - 1
          let dd' := if isRoot then dd - 1 else dd
          let rl' := if isRoot then rl else rl - 1
          some (.node d' dd' rl' (forestRemove name cs))
  | .node d dd rl cs, n :: rest₁ :: rest₂ =>
      (rmDirForest n (rest₁ :: rest₂) cs).map (fun cs' => .node d dd rl cs')
termination_by t path => (path.length, sizeOf t)

def rmDirForest (n : Nat) (path : List Nat) : RRForest → Option RRForest
  | .nil => none
  | .cons m t rest =>
      if m = n then (rmDirTree false t path).map (fun t' => .cons m t' rest)
      else (rmDirForest n path rest).map (fun rest' => .cons m t rest')
termination_by cs => (path.length, sizeOf cs)
end

inductive DirOp where
  | addDir (path : List Nat)
  | rmDir (path : List Nat)
  deriving DecidableEq, Repr

def applyOp (t : RRTree) : DirOp → Option RRTree
  | .addDir p => addDirTree true t p
  | .rmDir p => rmDirTree true t p

/-- Root directory as built by `PyIso.new(rock_ridge=True)`: both the root's
dot and dotdot records get `posix_file_links` 1 then `add_to_file_links`,
i.e. 2; the root has no subdirectories and no record of its own. -/
def initRRRoot : RRTree := .node 2 2 0 .nil

def runOpsFrom (t : RRTree) : List DirOp → Option RRTree
  | [] => some t
  | op :: rest => (applyOp t op).bind (fun t' => runOpsFrom t' rest)

/-- Rock Ridge image built with `new` followed by a sequence of
`add_directory` / `rm_directory` calls (`none` when some call raised). -/
def runOps (ops : List DirOp) : Option RRTree := runOpsFrom initRRRoot ops

theorem addDirForest_len (n : Nat) (path : List Nat) :
    ∀ (cs cs' : RRForest), addDirForest n path cs = some cs' →
      forestLen cs' = forestLen cs
  | .nil, cs' => by intro h; simp [addDirForest] at h
  | .cons m t rest, cs' => by
    intro h
    unfold addDirForest at h
    split at h
    · cases ht : addDirTree false t path with
      | none => rw [ht] at h; simp at h
      | some t' => rw [ht] at h; simp at h; subst h; simp [forestLen]
    · cases hr : addDirForest n path rest with
      | none => rw [hr] at h; simp at h
      | some r' =>
        rw [hr] at h; simp at h; subst h
        simp [forestLen, addDirForest_len n path rest r' hr]

theorem addDirForest_inv (n : Nat) (path : List Nat)
    (IH : ∀ t t', invTree t = true → addDirTree false t path = some t' →
      invTree t' = true) :
    ∀ (cs cs' : RRForest), invForest cs = true →
      addDirForest n path cs = some cs' → invForest cs' = true
  | .nil, cs' => by intro _ h; simp [addDirForest] at h
  | .cons m t rest, cs' => by
    intro hinv h
    unfold invForest at hinv
    rw [Bool.and_eq_true] at hinv
    unfold addDirForest at h
    split at h
    · cases ht : addDirTree false t path with
      | none => rw [ht] at h; simp at h
      | some t' =>
        rw [ht] at h; simp at h; subst h
        unfold invForest
        rw [Bool.and_eq_true]
        exact ⟨IH t t' hinv.1 ht, hinv.2⟩
    · cases hr : addDirForest n path rest with
      | none => rw [hr] at h; simp at h
      | some r' =>
        rw [hr] at h; simp at h; subst h
        unfold invForest
        rw [Bool.and_eq_true]
        exact ⟨hinv.1, addDirForest_inv n path IH rest r' hinv.2 hr⟩

theorem addDirTree_inv : ∀ (path : List Nat) (isRoot : Bool) (t t' : RRTree),
    invTree t = true → addDirTree isRoot t path = some t' → invTree t' = true
  | [], _, t, t' => by
    intro _ h
    cases t
    simp [addDirTree] at h
  | [name], isRoot, .node d dd rl cs, t' => by
    intro hinv h
    unfold addDirTree at h
    split at h
    · cases h
    · simp only [Option.some.injEq] at h
      subst h
      unfold invTree at hinv ⊢
      rw [Bool.and_eq_true] at hinv ⊢
      rw [beq_iff_eq] at hinv ⊢
      constructor
      · have h1 := hinv.1
        simp only [forestLen]
        push_cast at h1 ⊢
        omega
      · unfold invForest
        rw [Bool.and_eq_true]
        refine ⟨?_, hinv.2⟩
        simp [invTree, invForest, forestLen]
  | n :: r1 :: r2, isRoot, .node d dd rl cs, t' => by
    intro hinv h
    unfold addDirTree at h
    cases hf : addDirForest n (r1 :: r2) cs with
    | none => rw [hf] at h; simp at h
    | some cs' =>
      rw [hf] at h; simp at h; subst h
      unfold invTree at hinv ⊢
      rw [Bool.and_eq_true] at hinv ⊢
      refine ⟨?_, addDirForest_inv n (r1 :: r2)
        (fun u u' => addDirTree_inv (r1 :: r2) false u u') cs cs' hinv.2 hf⟩
      rw [addDirForest_len n (r1 :: r2) cs cs' hf]
      exact hinv.1

theorem forestRemove_found (n : Nat) :
    ∀ (cs : RRForest) (u : RRTree), forestFind n cs = some u →
      invForest cs = true →
      invForest (forestRemove n cs) = true ∧
        forestLen cs = forestLen (forestRemove n cs) + 1
  | .nil, u => by intro h _; simp [forestFind] at h
  | .cons m t rest, u => by
    intro hf hinv
    unfold invForest at hinv
    rw [Bool.and_eq_true] at hinv
    unfold forestFind at hf
    unfold forestRemove
    split at hf
    · rename_i hmn
      rw [if_pos hmn]
      refine ⟨hinv.2, ?_⟩
      simp only [forestLen]
      omega
    · rename_i hmn
      rw [if_neg hmn]
      obtain ⟨h1, h2⟩ := forestRemove_found n rest u hf hinv.2
      refine ⟨?_, ?_⟩
      · unfold invForest
        rw [Bool.and_eq_true]
        exact ⟨hinv.1, h1⟩
      · simp only [forestLen]
        omega

theorem rmDirForest_len (n : Nat) (path : List Nat) :
    ∀ (cs cs' : RRForest), rmDirForest n path cs = some cs' →
      forestLen cs' = forestLen cs
  | .nil, cs' => by intro h; simp [rmDirForest] at h
  | .cons m t rest, cs' => by
    intro h
    unfold rmDirForest at h
    split at h
    · cases ht : rmDirTree false t path with
      | none => rw [ht] at h; simp at h
      | some t' => rw [ht] at h; simp at h; subst h; simp [forestLen]
    · cases hr : rmDirForest n path rest with
      | none => rw [hr] at h; simp at h
      | some r' =>
        rw [hr] at h; simp at h; subst h
        simp [forestLen, rmDirForest_len n path rest r' hr]

theorem rmDirForest_inv (n : Nat) (path : List Nat)
    (IH : ∀ t t', invTree t = true → rmDirTree false t path = some t' →
      invTree t' = true) :
    ∀ (cs cs' : RRForest), invForest cs = true →
      rmDirForest n path cs = some cs' → invForest cs' = true
  | .nil, cs' => by intro _ h; simp [rmDirForest] at h
  | .cons m t rest, cs' => by
    intro hinv h
    unfold invForest at hinv
    rw [Bool.and_eq_true] at hinv
    unfold rmDirForest at h
    split at h
    · cases ht : rmDirTree false t path with
      | none => rw [ht] at h; simp at h
      | some t' =>
        rw [ht] at h; simp at h; subst h
        unfold invForest
        rw [Bool.and_eq_true]
        exact ⟨IH t t' hinv.1 ht, hinv.2⟩
    · cases hr : rmDirForest n path rest with
      | none => rw [hr] at h; simp at h
      | some r' =>
        rw [hr] at h; simp at h; subst h
        unfold invForest
        rw [Bool.and_eq_true]
        exact ⟨hinv.1, rmDirForest_inv n path IH rest r' hinv.2 hr⟩

theorem rmDirTree_inv : ∀ (path : List Nat) (isRoot : Bool) (t t' : RRTree),
    invTree t = true → rmDirTree isRoot t path = some t' → invTree t' = true
  | [], _, t, t' => by
    intro _ h
    cases t
    simp [rmDirTree] at h
  | [name], isRoot, .node d dd rl cs, t' => by
    intro hinv h
    unfold rmDirTree at h
    unfold invTree at hinv
    rw [Bool.and_eq_true, beq_iff_eq] at hinv
    cases hf : forestFind name cs with
    | none => rw [hf] at h; simp at h
    | some u =>
      rw [hf] at h
      match u, h with
      | .node a b c .nil, h =>
        simp only [Option.some.injEq] at h
        subst h
        obtain ⟨h1, h2⟩ := forestRemove_found name cs _ hf hinv.2
        unfold invTree
        rw [Bool.and_eq_true, beq_iff_eq]
        refine ⟨?_, h1⟩
        have h3 := hinv.1
        push_cast at h3 ⊢
        omega
  | n :: r1 :: r2, isRoot, .node d dd rl cs, t' => by
    intro hinv h
    unfold rmDirTree at h
    cases hf : rmDirForest n (r1 :: r2) cs with
    | none => rw [hf] at h; simp at h
    | some cs' =>
      rw [hf] at h; simp at h; subst h
      unfold invTree at hinv ⊢
      rw [Bool.and_eq_true] at hinv ⊢
      refine ⟨?_, rmDirForest_inv n (r1 :: r2)
        (fun u u' => rmDirTree_inv (r1 :: r2) false u u') cs cs' hinv.2 hf⟩
      rw [rmDirForest_len n (r1 :: r2) cs cs' hf]
      exact hinv.1

theorem runOpsFrom_inv : ∀ (ops : List DirOp) (t t' : RRTree),
    invTree t = true → runOpsFrom t ops = some t' → invTree t' = true
  | [], t, t' => by
    intro hi h
    simp only [runOpsFrom, Option.some.injEq] at h
    subst h
    exact hi
  | op :: rest, t, t' => by
    intro hi h
    unfold runOpsFrom at h
    cases ha : applyOp t op with
    | none => rw [ha] at h; cases h
    | some t₁ =>
      rw [ha] at h
      rw [show (some t₁).bind (fun u => runOpsFrom u rest) =
        runOpsFrom t₁ rest from rfl] at h
      refine runOpsFrom_inv rest t₁ t' ?_ h
      cases op with
      | addDir p => exact addDirTree_inv p true t t₁ hi ha
      | rmDir p => exact rmDirTree_inv p true t t₁ hi ha

/-- Claim C4: in a Rock Ridge image built by `new` followed by any sequence
of `add_directory` / `rm_directory` calls, every non-root directory D
satisfies nlink(D/.) = 2 + (number of child directories of D) — `invForest`
checks this at every directory of the root's subtree forest — and creating a
directory directly under the root increments the link counts of both the
root's dot and dotdot records by one, while removing it again decrements
both by one. -/
theorem rock_ridge_nlink_identity (ops : List DirOp) (name : Nat)
    (t t₁ t₂ : RRTree)
    (hrun : runOps ops = some t)
    (hadd : addDirTree true t [name] = some t₁)
    (hrm : rmDirTree true t₁ [name] = some t₂) :
    invForest (rrChildren t) = true ∧
      rrDotLinks t₁ = rrDotLinks t + 1 ∧
      rrDotdotLinks t₁ = rrDotdotLinks t + 1 ∧
      rrDotLinks t₂ = rrDotLinks t₁ - 1 ∧
      rrDotdotLinks t₂ = rrDotdotLinks t₁ - 1 := by
  have hti : invTree t = true :=
    runOpsFrom_inv ops initRRRoot t (by decide) hrun
  cases t with
  | node d dd rl cs =>
    unfold invTree at hti
    rw [Bool.and_eq_true] at hti
    unfold addDirTree at hadd
    split at hadd
    · cases hadd
    · simp only [if_true, Option.some.injEq] at hadd
      subst hadd
      unfold rmDirTree at hrm
      rw [show forestFind name
          (.cons name (.node 2 (dd + 1) 2 .nil) cs) =
          some (.node 2 (dd + 1) 2 .nil) by
        unfold forestFind; rw [if_pos rfl]] at hrm
      simp only [if_true, Option.some.injEq] at hrm
      subst hrm
      refine ⟨hti.2, ?_, ?_, ?_, ?_⟩ <;>
        simp [rrDotLinks, rrDotdotLinks, rrChildren]

/-- Witness for C4: build `/DIR7`, then create and remove `/DIR9`; the root's
dot and dotdot counters go 3 → 4 → 3 and the invariant holds throughout. -/
theorem rock_ridge_nlink_identity_witness :
    invForest (rrChildren (RRTree.node 3 3 0
        (.cons 7 (.node 2 3 2 .nil) .nil))) = true ∧
      rrDotLinks (RRTree.node 4 4 0 (.cons 9 (.node 2 4 2 .nil)
          (.cons 7 (.node 2 3 2 .nil) .nil))) =
        rrDotLinks (RRTree.node 3 3 0 (.cons 7 (.node 2 3 2 .nil) .nil)) + 1 ∧
      rrDotdotLinks (RRTree.node 4 4 0 (.cons 9 (.node 2 4 2 .nil)
          (.cons 7 (.node 2 3 2 .nil) .nil))) =
        rrDotdotLinks (RRTree.node 3 3 0
          (.cons 7 (.node 2 3 2 .nil) .nil)) + 1 ∧
      rrDotLinks (RRTree.node 3 3 0 (.cons 7 (.node 2 3 2 .nil) .nil)) =
        rrDotLinks (RRTree.node 4 4 0 (.cons 9 (.node 2 4 2 .nil)
          (.cons 7 (.node 2 3 2 .nil) .nil))) - 1 ∧
      rrDotdotLinks (RRTree.node 3 3 0 (.cons 7 (.node 2 3 2 .nil) .nil)) =
        rrDotdotLinks (RRTree.node 4 4 0 (.cons 9 (.node 2 4 2 .nil)
          (.cons 7 (.node 2 3 2 .nil) .nil))) - 1 :=
  rock_ridge_nlink_identity [.addDir [7]] 9
    (.node 3 3 0 (.cons 7 (.node 2 3 2 .nil) .nil))
    (.node 4 4 0 (.cons 9 (.node 2 4 2 .nil) (.cons 7 (.node 2 3 2 .nil) .nil)))
    (.node 3 3 0 (.cons 7 (.node 2 3 2 .nil) .nil))
    (by norm_num [runOps, runOpsFrom, applyOp, addDirTree, forestHasName,
      initRRRoot])
    (by norm_num [addDirTree, forestHasName])
    (by norm_num [rmDirTree, forestFind, forestRemove])

/-! ## The extent allocator (`_reshuffle_extents`) (claims C2, C9, C10)

Model of `PyIso._reshuffle_extents` / `PyIso._reassign_vd_dirrecord_extents`.
The pass reads only structural data — tree shape, `data_length`s, identifiers,
path-table extent counts, counts of boot records / SVDs / terminators, Rock
Ridge continuation lengths, El Torito bindings — and writes only relocation
fields: every `new_extent_loc`, the path table locations, the CE continuation
(extent, offset) pairs, the boot record's `boot_system_use`, the initial
entry's `load_rba`, and the path-table records' `extent_location`s.  The
embedding therefore splits the image state into an `IsoShape` (read-only for
the pass) and an `IsoLayout` (the mutable relocation fields, passed and
rewritten explicitly); `orig_extent_loc` lives in the shape — the source
assigns it only in `parse`/`new` methods, never in the reshuffle pass.

Directory records carry a unique object identity `id` (standing for Python
object identity); assignments to `new_extent_loc` become `(id, extent)`
entries of the layout.  During the breadth-first walk the source reads
`child.parent.extent_location()` (for dot) and
`child.parent.parent.extent_location()` (for dotdot); both values were
written earlier in the same pass — the parent when it was enqueued (the root
at the start of the walk), the grandparent before that — so the queue entries
carry those just-written extents explicitly. -/

mutual
inductive DR where
  | mk (id : Nat) (file_ident : List Nat) (isdir : Bool) (data_length : Int)
       (orig_extent_loc : Int) (dataOnOriginalIso : Bool)
       (rrCELen : Option Int) (children : DRChildren) : DR
  deriving DecidableEq, Repr
inductive DRChildren where
  | nil : DRChildren
  | cons (hd : DR) (tl : DRChildren) : DRChildren
  deriving DecidableEq, Repr
end

def drIdOf : DR → Nat
  | .mk i _ _ _ _ _ _ _ => i

def drIsdir : DR → Bool
  | .mk _ _ d _ _ _ _ _ => d

def drDataLength : DR → Int
  | .mk _ _ _ l _ _ _ _ => l

def drOrigExtentLoc : DR → Int
  | .mk _ _ _ _ o _ _ _ => o

def drDataOnOriginal : DR → Bool
  | .mk _ _ _ _ _ b _ _ => b

def drChildrenOf : DR → DRChildren
  | .mk _ _ _ _ _ _ _ cs => cs

mutual
def drSize : DR → Nat
  | .mk _ _ _ _ _ _ _ cs => 1 + drChildrenSize cs
def drChildrenSize : DRChildren → Nat
  | .nil => 0
  | .cons c tl => drSize c + drChildrenSize tl
end

/-- Queue entry of the breadth-first directory walk
(`dirs = collections.deque(...)`): the directory record, the extent this
pass assigned to it, and the extent this pass assigned to its parent. -/
structure QEntry where
  node : DR
  myExtent : Int
  parentExtent : Int
  isRoot : Bool

def qsize : List QEntry → Nat
  | [] => 0
  | e :: rest => drSize e.node + qsize rest

/-- Mutable state threaded through `_reassign_vd_dirrecord_extents`:
`current_extent`, `rr_cont_extent` / `rr_cont_offset`, plus the accumulated
`new_extent_loc` writes (`drAcc`, keyed by record identity) and continuation
entry (extent, offset) writes (`ceAcc`). -/
structure WalkState where
  current : Int
  rrContExtent : Option Int
  rrContOffset : Int
  drAcc : List (Nat × Int)
  ceAcc : List (Nat × Int × Int)
  deriving DecidableEq, Repr

/-- Loop body of `_reassign_vd_dirrecord_extents` over
`for child in dir_record.children`: dot gets the parent's extent, dotdot the
grandparent's (the parent's own when the parent is root), other directories
get `current_extent` (advanced by `ceiling_div(data_length, log_block_size)`)
and are enqueued, and any child with a Rock Ridge CE gets its continuation
area packed into the current continuation block, or a fresh block when it
does not fit (`(log_block_size - rr_cont_offset) < rr_cont_len`). -/
def processChildren (lbs : Int) (myExt parExt : Int) (isRoot : Bool) :
    DRChildren → WalkState → WalkState × List QEntry
  | .nil, w => (w, [])
  | .cons c tl, w =>
    match c with
    | .mk cid ident isdir dlen _ _ ce _ =>
      if isdir && ident == [0] then
        processChildren lbs myExt parExt isRoot tl
          { w with drAcc := w.drAcc ++ [(cid, myExt)] }
      else if isdir && ident == [1] then
        processChildren lbs myExt parExt isRoot tl
          { w with drAcc := w.drAcc ++
              [(cid, if isRoot then myExt else parExt)] }
      else
        let w₁ :=
          if isdir then
            { w with
              drAcc := w.drAcc ++ [(cid, w.current)],
              current := w.current + ceiling_div dlen lbs }
          else w
        let qs₁ : List QEntry :=
          if isdir then [⟨c, w.current, myExt, false⟩] else []
        let w₂ :=
          match ce with
          | none => w₁
          | some rr_cont_len =>
            match w₁.rrContExtent with
            | none =>
              { w₁ with
                ceAcc := w₁.ceAcc ++ [(cid, w₁.current, 0)],
                rrContExtent := some w₁.current,
                rrContOffset := rr_cont_len,
                current := w₁.current + 1 }
            | some rrExt =>
              if lbs - w₁.rrContOffset < rr_cont_len then
                { w₁ with
                  ceAcc := w₁.ceAcc ++ [(cid, w₁.current, 0)],
                  rrContExtent := some w₁.current,
                  rrContOffset := rr_cont_len,
                  current := w₁.current + 1 }
              else
                { w₁ with
                  ceAcc := w₁.ceAcc ++ [(cid, rrExt, w₁.rrContOffset)],
                  rrContOffset := w₁.rrContOffset + rr_cont_len }
        let r := processChildren lbs myExt parExt isRoot tl w₂
        (r.1, qs₁ ++ r.2)

theorem qsize_append (a b : List QEntry) :
    qsize (a ++ b) = qsize a + qsize b := by
  induction a with
  | nil => simp [qsize]
  | cons e rest ih => simp [qsize, ih]; omega

theorem qsize_processChildren (lbs : Int) (myExt parExt : Int) (isRoot : Bool) :
    ∀ (cs : DRChildren) (w : WalkState),
      qsize (processChildren lbs myExt parExt isRoot cs w).2 ≤
        drChildrenSize cs
  | .nil, w => by simp [processChildren, qsize]
  | .cons c tl, w => by
    match c with
    | .mk cid ident isdir dlen oel onO ce ccs =>
      unfold processChildren
      simp only
      split
      · exact le_trans (qsize_processChildren lbs myExt parExt isRoot tl _)
          (by simp [drChildrenSize])
      · split
        · exact le_trans (qsize_processChildren lbs myExt parExt isRoot tl _)
            (by simp [drChildrenSize])
        · rw [qsize_append]
          have h2 : qsize (if isdir = true then
              [⟨DR.mk cid ident isdir dlen oel onO ce ccs, w.current, myExt,
                false⟩] else []) ≤
              drSize (DR.mk cid ident isdir dlen oel onO ce ccs) := by
            split
            · simp [qsize, drSize]
            · simp [qsize]
          refine le_trans (Nat.add_le_add h2
            (qsize_processChildren lbs myExt parExt isRoot tl _)) ?_
          simp [drChildrenSize]

theorem drChildrenSize_lt (t : DR) : drChildrenSize (drChildrenOf t) < drSize t := by
  cases t
  simp [drChildrenOf, drSize]

/-- Breadth-first queue loop of `_reassign_vd_dirrecord_extents`
(`while dirs: dir_record = dirs.popleft(); ...`). -/
def walkDirs (lbs : Int) : List QEntry → WalkState → WalkState
  | [], w => w
  | e :: rest, w =>
    let pc := processChildren lbs e.myExtent e.parentExtent e.isRoot
      (drChildrenOf e.node) w
    walkDirs lbs (rest ++ pc.2) pc.1
termination_by queue => qsize queue
decreasing_by
  simp only [qsize, qsize_append]
  have h1 := qsize_processChildren lbs e.myExtent e.parentExtent e.isRoot
    (drChildrenOf e.node) w
  have h2 := drChildrenSize_lt e.node
  omega

def lookupAssign (i : Nat) : List (Nat × Int) → Option Int
  | [] => none
  | (j, e) :: rest => if j = i then some e else lookupAssign i rest

/-- Link from a path table record to its directory record
(`ptr.dirrecord`), with the directory's original extent as the
`extent_location()` fallback used when no new extent has been assigned. -/
structure PtrLink where
  dirId : Nat
  dirOrigExtent : Int
  deriving DecidableEq, Repr

/-- `PyIso._reassign_vd_dirrecord_extents(vd, current_extent)`: assign the
root its extent, advance past the root directory block(s), walk the tree
breadth-first, then refresh every path table record's `extent_location` from
its linked directory record (`vd.update_ptr_extent_locations()`). -/
def reassign_vd_dirrecord_extents (lbs : Int) (tree : DR) (current : Int)
    (ptrs : List PtrLink) : WalkState × List Int :=
  let rootExt := current
  let w0 : WalkState :=
    ⟨current + ceiling_div (drDataLength tree) lbs, none, 0,
     [(drIdOf tree, rootExt)], []⟩
  let w := walkDirs lbs [⟨tree, rootExt, 0, true⟩] w0
  (w, ptrs.map (fun p => (lookupAssign p.dirId w.drAcc).getD p.dirOrigExtent))

/-- El Torito bindings read by the reshuffle pass and `add_isohybrid`:
object identities of the boot catalog's fake-file record and of the initial
entry's boot-file record, plus the initial entry's `sector_count`. -/
structure EltShape where
  catalogDirId : Nat
  initialDirId : Nat
  sectorCount : Int
  deriving DecidableEq, Repr

/-- Loop body of the final file walk of `_reshuffle_extents`: directories are
descended into (dot and dotdot are skipped); files bound to the El Torito
catalog or its initial entry are skipped (they were assigned before the
walk); every other file body gets `current_extent`, advanced by
`ceiling_div(data_length, log_block_size)`. -/
def processFileChildren (lbs : Int) (elt : Option EltShape) :
    DRChildren → Int × List (Nat × Int) → (Int × List (Nat × Int)) × List DR
  | .nil, acc => (acc, [])
  | .cons c tl, acc =>
    match c with
    | .mk cid ident isdir dlen _ _ _ _ =>
      if isdir then
        let qs₁ : List DR :=
          if ident == [0] || ident == [1] then [] else [c]
        let r := processFileChildren lbs elt tl acc
        (r.1, qs₁ ++ r.2)
      else if (match elt with
               | none => false
               | some e => cid == e.catalogDirId || cid == e.initialDirId) then
        processFileChildren lbs elt tl acc
      else
        processFileChildren lbs elt tl
          (acc.1 + ceiling_div dlen lbs, acc.2 ++ [(cid, acc.1)])

def fqsize : List DR → Nat
  | [] => 0
  | t :: rest => drSize t + fqsize rest

theorem fqsize_append (a b : List DR) :
    fqsize (a ++ b) = fqsize a + fqsize b := by
  induction a with
  | nil => simp [fqsize]
  | cons t rest ih => simp [fqsize, ih]; omega

theorem fqsize_processFileChildren (lbs : Int) (elt : Option EltShape) :
    ∀ (cs : DRChildren) (acc : Int × List (Nat × Int)),
      fqsize (processFileChildren lbs elt cs acc).2 ≤ drChildrenSize cs
  | .nil, acc => by simp [processFileChildren, fqsize]
  | .cons c tl, acc => by
    match c with
    | .mk cid ident isdir dlen oel onO ce ccs =>
      unfold processFileChildren
      simp only
      split
      · rw [fqsize_append]
        have h2 : fqsize (if (ident == [0] || ident == [1]) = true then []
            else [DR.mk cid ident isdir dlen oel onO ce ccs]) ≤
            drSize (DR.mk cid ident isdir dlen oel onO ce ccs) := by
          split
          · simp [fqsize]
          · simp [fqsize]
        refine le_trans (Nat.add_le_add h2
          (fqsize_processFileChildren lbs elt tl _)) ?_
        simp [drChildrenSize]
      · split
        · exact le_trans (fqsize_processFileChildren lbs elt tl _)
            (by simp [drChildrenSize])
        · exact le_trans (fqsize_processFileChildren lbs elt tl _)
            (by simp [drChildrenSize])

/-- Breadth-first queue loop of the final file walk of
`_reshuffle_extents`. -/
def walkFiles (lbs : Int) (elt : Option EltShape) :
    List DR → Int × List (Nat × Int) → Int × List (Nat × Int)
  | [], acc => acc
  | t :: rest, acc =>
    let pc := processFileChildren lbs elt (drChildrenOf t) acc
    walkFiles lbs elt (rest ++ pc.2) pc.1
termination_by queue => fqsize queue
decreasing_by
  simp only [fqsize, fqsize_append]
  have h1 := fqsize_processFileChildren lbs elt (drChildrenOf t) acc
  have h2 := drChildrenSize_lt t
  omega

/-- Structural data of a Supplementary Volume Descriptor read by the pass. -/
structure SvdShape where
  pathTableNumExtents : Int
  logBlockSize : Int
  tree : DR
  ptrs : List PtrLink
  deriving DecidableEq, Repr

/-- The image data the reshuffle pass reads and never writes. -/
structure IsoShape where
  pvdExtentLocation : Int
  numBrs : Nat
  numVdsts : Nat
  pvdPathTableNumExtents : Int
  pvdLogBlockSize : Int
  pvdTree : DR
  pvdPtrs : List PtrLink
  svds : List SvdShape
  rockRidge : Bool
  eltorito : Option EltShape
  deriving DecidableEq, Repr

/-- The relocation fields the reshuffle pass writes: the current values of
every `new_extent_loc` (`drExtents`, keyed by record identity), the CE
continuation (extent, offset) pairs (`ceAssignments`), the path table
locations, the Rock Ridge ER block extent (the `new_extent_loc` of the root
dot's continuation entry), the boot record's `boot_system_use` extent, the
El Torito initial entry's `load_rba`, and the path-table records'
`extent_location`s. -/
structure IsoLayout where
  brExtents : List Int
  svdExtents : List Int
  vdstExtents : List Int
  versionExtent : Int
  pvdPathTableLocationLE : Int
  pvdPathTableLocationBE : Int
  svdPathTableLocations : List (Int × Int)
  drExtents : List (Nat × Int)
  ceAssignments : List (Nat × Int × Int)
  rrERExtent : Option Int
  bootSystemUse : Option Int
  eltInitialLoadRba : Int
  pvdPtrExtents : List Int
  svdPtrExtents : List (List Int)
  deriving DecidableEq, Repr

/-- `PyIso._reshuffle_extents()`: the single ordered pass.  `prev` holds the
current layout; the pass overwrites every field except those guarded in the
source — the ER block extent is written only when `self.rock_ridge` is set,
and `boot_system_use` / `load_rba` (and the catalog and initial-entry record
extents) only when an El Torito catalog exists — which otherwise keep their
previous values. -/
def computeLayout (s : IsoShape) (prev : IsoLayout) : IsoLayout :=
  let c0 := s.pvdExtentLocation + 1
  let brExtents := (List.range s.numBrs).map (fun i => c0 + (i : Int))
  let c1 := c0 + (s.numBrs : Int)
  let svdExtents := (List.range s.svds.length).map (fun i => c1 + (i : Int))
  let c2 := c1 + (s.svds.length : Int)
  let vdstExtents := (List.range s.numVdsts).map (fun i => c2 + (i : Int))
  let c3 := c2 + (s.numVdsts : Int)
  let versionExtent := c3
  let c4 := c3 + 1
  let ptLE := c4
  let ptBE := c4 + s.pvdPathTableNumExtents
  let c5 := c4 + 2 * s.pvdPathTableNumExtents
  let svdPT := s.svds.foldl
    (fun acc svd =>
      (acc.1 ++ [(acc.2, acc.2 + svd.pathTableNumExtents)],
       acc.2 + 2 * svd.pathTableNumExtents))
    (([] : List (Int × Int)), c5)
  let c6 := svdPT.2
  let pvdWalk :=
    reassign_vd_dirrecord_extents s.pvdLogBlockSize s.pvdTree c6 s.pvdPtrs
  let svdWalks := s.svds.foldl
    (fun acc svd =>
      let r := reassign_vd_dirrecord_extents svd.logBlockSize svd.tree
        acc.2 svd.ptrs
      (acc.1 ++ [r], r.1.current))
    (([] : List (WalkState × List Int)), pvdWalk.1.current)
  let c7 := svdWalks.2
  let rrER := if s.rockRidge then some c7 else prev.rrERExtent
  let c8 := if s.rockRidge then c7 + 1 else c7
  let eltStep : Option Int × List (Nat × Int) × Int × Int :=
    match s.eltorito with
    | none => (prev.bootSystemUse, [], prev.eltInitialLoadRba, c8)
    | some e => (some c8, [(e.catalogDirId, c8), (e.initialDirId, c8 + 1)],
        c8 + 1, c8 + 2)
  let fileWalk := walkFiles s.pvdLogBlockSize s.eltorito [s.pvdTree]
      (eltStep.2.2.2, [])
  { brExtents := brExtents
    svdExtents := svdExtents
    vdstExtents := vdstExtents
    versionExtent := versionExtent
    pvdPathTableLocationLE := ptLE
    pvdPathTableLocationBE := ptBE
    svdPathTableLocations := svdPT.1
    drExtents := pvdWalk.1.drAcc ++
      (svdWalks.1.map (fun r => r.1.drAcc)).flatten ++ eltStep.2.1 ++ fileWalk.2
    ceAssignments := pvdWalk.1.ceAcc ++
      (svdWalks.1.map (fun r => r.1.ceAcc)).flatten
    rrERExtent := rrER
    bootSystemUse := eltStep.1
    eltInitialLoadRba := eltStep.2.2.1
    pvdPtrExtents := pvdWalk.2
    svdPtrExtents := svdWalks.1.map (fun r => r.2) }

/-- A DOS-style MBR prepended to the image (`IsoHybrid` fields as assigned
by `IsoHybrid.new`). -/
structure IsoHybrid where
  mbr : List Nat
  rba : Int
  mbr_id : Nat
  part_entry : Nat
  bhead : Nat
  bsect : Nat
  bcyle : Nat
  ptype : Nat
  ehead : Nat
  part_offset : Nat
  geometry_heads : Nat
  geometry_sectors : Nat
  deriving DecidableEq, Repr

/-- The image state carried by a `PyIso` object, split as above, plus the
`isohybrid_mbr` slot. -/
structure IsoState where
  shape : IsoShape
  layout : IsoLayout
  isohybridMbr : Option IsoHybrid
  deriving DecidableEq, Repr

/-- `PyIso._reshuffle_extents()` as a state transformer: recompute every
relocation field from the structural data. -/
def reshuffle_extents (st : IsoState) : IsoState :=
  { st with layout := computeLayout st.shape st.layout }

theorem computeLayout_prev_irrel (s : IsoShape) (p₁ p₂ : IsoLayout)
    (hrr : s.rockRidge = false → p₁.rrERExtent = p₂.rrERExtent)
    (hbe : s.eltorito = none → p₁.bootSystemUse = p₂.bootSystemUse)
    (hlr : s.eltorito = none → p₁.eltInitialLoadRba = p₂.eltInitialLoadRba) :
    computeLayout s p₁ = computeLayout s p₂ := by
  unfold computeLayout
  cases hrrb : s.rockRidge <;> cases helt : s.eltorito <;>
    simp_all

/-- Claim C2: invoking the reshuffle pass twice in a row yields exactly the
state that one invocation yields — the second call leaves every volume
descriptor extent, path table location, directory record extent,
continuation-area assignment, boot-catalog binding and file-body extent
unchanged — because the pass reads only structural data that it never
writes. -/
theorem reshuffle_extents_idempotent (st : IsoState) :
    reshuffle_extents (reshuffle_extents st) = reshuffle_extents st := by
  unfold reshuffle_extents
  simp only
  congr 1
  apply computeLayout_prev_irrel
  · intro h
    simp [computeLayout, h]
  · intro h
    simp [computeLayout, h]
  · intro h
    simp [computeLayout, h]

def childAt : DRChildren → Nat → Option DR
  | .nil, _ => none
  | .cons c _, 0 => some c
  | .cons _ tl, n + 1 => childAt tl n

/-- Directory record at a child-index path inside a tree. -/
def drAt : DR → List Nat → Option DR
  | t, [] => some t
  | t, i :: rest =>
    match childAt (drChildrenOf t) i with
    | none => none
    | some c => drAt c rest

/-- `DirectoryRecord.open_data(logical_block_size)`: a directory raises;
otherwise the data file object is seeked to
`orig_extent_loc * logical_block_size` when the data source is tagged
`DATA_ON_ORIGINAL_ISO`, and to 0 when it is an externally attached file.
The returned value is the resulting seek position. -/
def open_data_seek_pos (r : DR) (logical_block_size : Int) :
    Except PyIsoErr Int :=
  if drIsdir r then .error .invalidArgument
  else if drDataOnOriginal r then .ok (drOrigExtentLoc r * logical_block_size)
  else .ok 0

theorem reshuffle_iterate_shape (st : IsoState) (n : Nat) :
    (reshuffle_extents^[n] st).shape = st.shape := by
  induction n generalizing st with
  | zero => rfl
  | succ k ih =>
    rw [Function.iterate_succ_apply]
    rw [ih (reshuffle_extents st)]
    rfl

/-- Claim C9: the reshuffle pass writes only `new_extent_loc` relocation data
(the layout) and never touches `orig_extent_loc` — the whole record tree,
`orig_extent_loc` included, is untouched — so a record whose data source is
tagged as residing on the original ISO still has `open_data` seek the source
file object to `orig_extent_loc * logical_block_size` after any number of
reshuffle passes. -/
theorem reshuffle_only_writes_new_extent_loc (st : IsoState) (n : Nat)
    (p : List Nat) (r : DR) (lbs : Int)
    (hfind : drAt ((reshuffle_extents^[n] st).shape.pvdTree) p = some r)
    (hfile : drIsdir r = false) (horig : drDataOnOriginal r = true) :
    (reshuffle_extents st).shape.pvdTree = st.shape.pvdTree ∧
      drAt st.shape.pvdTree p = some r ∧
      open_data_seek_pos r lbs = .ok (drOrigExtentLoc r * lbs) := by
  refine ⟨rfl, ?_, ?_⟩
  · rw [reshuffle_iterate_shape st n] at hfind
    exact hfind
  · unfold open_data_seek_pos
    rw [hfile, horig]
    simp

/-- Concrete image for the C9 and C10 witnesses: a root directory with one
file child whose data lives on the original ISO at extent 30. -/
def c9File : DR := .mk 2 [65] false 100 30 true none .nil

def c9Shape : IsoShape :=
  ⟨16, 0, 1, 2, 2048, .mk 1 [0] true 2048 23 false none (.cons c9File .nil),
   [⟨1, 23⟩], [], false, none⟩

def c9Layout : IsoLayout :=
  ⟨[], [], [], 0, 0, 0, [], [], [], none, none, 0, [], []⟩

def c9State : IsoState := ⟨c9Shape, c9Layout, none⟩

/-- Witness for C9 at a concrete image: one file record on the original ISO
at extent 30, looked up after two reshuffle passes. -/
theorem reshuffle_only_writes_new_extent_loc_witness :
    (reshuffle_extents c9State).shape.pvdTree = c9State.shape.pvdTree ∧
      drAt c9State.shape.pvdTree [0] = some c9File ∧
      open_data_seek_pos c9File 2048 = .ok (drOrigExtentLoc c9File * 2048) :=
  reshuffle_only_writes_new_extent_loc c9State 2 [0] c9File 2048
    (by rfl) (by rfl) (by rfl)

/-! ## `add_isohybrid` / `rm_isohybrid` (claim C10) -/

/-- `IsoHybrid.new(instr, rba, part_entry, mbr_id, part_offset,
geometry_sectors, geometry_heads, part_type)`: store the 432-byte bootstrap
and the partition/CHS geometry fields.  The offsets and geometry are
non-negative in every call, so Python's `/` (floor), `%`, `&` and `>>` on
them coincide with the `Nat` operations; a `None` mbr_id is replaced by
`random.getrandbits(32)`, passed in explicitly as `randomBits`. -/
def isohybrid_new (instr : List Nat) (rba : Int) (part_entry : Nat)
    (mbr_id : Option Nat) (randomBits : Nat)
    (part_offset geometry_sectors geometry_heads part_type : Nat) :
    IsoHybrid :=
  let mid := match mbr_id with
    | none => randomBits
    | some m => m
  let bhead := (part_offset / geometry_sectors) % geometry_heads
  let bsect := (part_offset % geometry_sectors) + 1
  let bcyle := part_offset / (geometry_heads * geometry_sectors)
  let bsect := bsect + ((bcyle &&& 0x300) >>> 2)
  let bcyle := bcyle &&& 0xff
  ⟨instr, rba, mid, part_entry, bhead, bsect, bcyle, part_type,
   geometry_heads - 1, part_offset, geometry_heads, geometry_sectors⟩

/-- `PyIso.add_isohybrid(...)`: reject a bootstrap that is not exactly 432
bytes, an image without an El Torito boot catalog, an initial entry whose
`sector_count` is not 4, or a boot file whose 4 bytes at offset 0x40 are not
`FB C0 78 70`; otherwise build the `IsoHybrid` from the bootstrap and the
initial entry's current `load_rba` and store it in `isohybrid_mbr`.  No
other field changes and the reshuffle pass is not invoked. -/
def add_isohybrid (st : IsoState) (bootstrap : List Nat) (part_entry : Nat)
    (mbr_id : Option Nat) (randomBits : Nat)
    (part_offset geometry_sectors geometry_heads part_type : Nat)
    (bootfile_signature : List Nat) : Except PyIsoErr IsoState :=
  if bootstrap.length ≠ 432 then .error .invalidArgument
  else
    match st.shape.eltorito with
    | none => .error .invalidArgument
    | some e =>
      if e.sectorCount ≠ 4 then .error .invalidArgument
      else if bootfile_signature ≠ [0xfb, 0xc0, 0x78, 0x70] then
        .error .invalidArgument
      else
        .ok { st with isohybridMbr := some (isohybrid_new bootstrap
          st.layout.eltInitialLoadRba part_entry mbr_id randomBits
          part_offset geometry_sectors geometry_heads part_type) }

/-- `PyIso.rm_isohybrid()`: `self.isohybrid_mbr = None` and nothing else. -/
def rm_isohybrid (st : IsoState) : IsoState := { st with isohybridMbr := none }

/-- Claim C10: a successful `add_isohybrid` and any `rm_isohybrid` modify
only the `isohybrid_mbr` slot: the directory tree, path tables and every
extent assignment (the whole shape and layout) are identical before and
after, and neither operation invokes the reshuffle pass — the layout is left
untouched even on states whose layout a reshuffle would change. -/
theorem isohybrid_only_touches_mbr (st st' : IsoState) (bootstrap : List Nat)
    (part_entry : Nat) (mbr_id : Option Nat) (randomBits : Nat)
    (part_offset geometry_sectors geometry_heads part_type : Nat)
    (signature : List Nat)
    (h : add_isohybrid st bootstrap part_entry mbr_id randomBits part_offset
      geometry_sectors geometry_heads part_type signature = .ok st') :
    st'.shape = st.shape ∧ st'.layout = st.layout ∧
      st' = { st with isohybridMbr := st'.isohybridMbr } ∧
      rm_isohybrid st = { st with isohybridMbr := none } := by
  unfold add_isohybrid at h
  split at h
  · cases h
  · split at h
    · cases h
    · split at h
      · cases h
      · split at h
        · cases h
        · injection h with h
          subst h
          exact ⟨rfl, rfl, rfl, rfl⟩


/-- Concrete image with an El Torito catalog (sector count 4) for the C10
witness. -/
def c10State : IsoState :=
  ⟨{ c9Shape with eltorito := some ⟨3, 2, 4⟩ }, c9Layout, none⟩

def c10Mbr : IsoHybrid :=
  isohybrid_new (List.replicate 432 0) 0 1 (some 5) 0 0 32 64 23

def c10Result : IsoState := ⟨c10State.shape, c10State.layout, some c10Mbr⟩

set_option maxRecDepth 4000 in
/-- Witness for C10: adding a hybrid MBR to a concrete El Torito image
changes only the `isohybrid_mbr` slot. -/
theorem isohybrid_only_touches_mbr_witness :
    c10Result.shape = c10State.shape ∧ c10Result.layout = c10State.layout ∧
      c10Result = { c10State with isohybridMbr := c10Result.isohybridMbr } ∧
      rm_isohybrid c10State = { c10State with isohybridMbr := none } :=
  isohybrid_only_touches_mbr c10State c10Result (List.replicate 432 0) 1
    (some 5) 0 0 32 64 23 [0xfb, 0xc0, 0x78, 0x70] (by rfl)
